import Mathlib

/-!
Shallow embedding of `src/sidechain.cpp` (sidechain object model, binary
framing codec, deposit-address codec and selection helpers) and proofs of
the specification's claims about it.

Modelling conventions:
* C++ `std::string` is `List Char`; raw byte buffers are `List Nat` whose
  entries are meant to be `< 256` (enforced by validity predicates where a
  claim needs it).
* Machine integers are `Nat` with explicit truncation where the source's
  behaviour depends on the width: `size_t` is 64-bit (`std::string::npos`
  is `2^64 - 1`) and `unsigned int` is 32-bit, as on LP64 platforms, so
  assigning a `size_t` into `unsigned int` is reduction mod `2^32`.
* Fallible operations return `Option`; the C++ `try { std::stoul ... }
  catch (...)` is modelled by `stoulModel` returning `none` exactly when
  the C++ call would throw.
* External collaborators that are not part of this repository's source
  (the SHA-256 primitive, the transaction codec) are parameters with only
  their contracts assumed, per the spec's interface section.
-/

namespace Sidechain

/-! ## Machine-integer helpers -/

/-- `std::string::npos` on an LP64 platform: `size_t(-1) = 2^64 - 1`. -/
def NPOS : Nat := 18446744073709551615

/-- `ULONG_MAX` on an LP64 platform (`std::stoul` returns `unsigned long`). -/
def ULONG_MAX : Nat := 18446744073709551615

/-- Truncation to `unsigned int` (32 bits): what happens when a `size_t`
value is assigned into the `unsigned int` locals `delim1`/`delim2`. -/
def U32 (n : Nat) : Nat := n % 4294967296

/-! ## C++ string-operation models -/

/-- Index of the first occurrence of an element in a list, if any. -/
def findCharIdx (c : Char) : List Char → Option Nat
  | [] => none
  | a :: l => if a = c then some 0 else (findCharIdx c l).map (· + 1)

/-- `std::string::find_first_of` for a one-character set: index of the first
occurrence, or `npos` when absent. -/
def findFirstOf (s : List Char) (c : Char) : Nat :=
  match findCharIdx c s with
  | some i => i
  | none => NPOS

/-- `std::string::find_last_of` for a one-character set: index of the last
occurrence, or `npos` when absent. -/
def findLastOf (s : List Char) (c : Char) : Nat :=
  match findCharIdx c s.reverse with
  | some j => s.length - 1 - j
  | none => NPOS

/-- `std::string::substr(pos, len)`: the characters in `[pos, pos + len)`,
clamped at the end of the string.  (All call sites in the parser have
`pos ≤ size`, so the out-of-range exception never fires.) -/
def substrC (s : List Char) (pos len : Nat) : List Char :=
  (s.drop pos).take len

/-- The six whitespace characters recognised by `isspace` in the default
locale, which `std::stoul` skips. -/
def isSpaceChar (c : Char) : Bool :=
  c = ' ' || c = '\t' || c = '\n' || c = '\x0b' || c = '\x0c' || c = '\r'

/-- Decimal-digit test used by `std::stoul` in base 10. -/
def isDigitChar (c : Char) : Bool :=
  '0' ≤ c && c ≤ '9'

/-- Numeric value of a decimal digit character. -/
def digitVal (c : Char) : Nat := c.toNat - 48

/-- Leading-sign handling of `std::stoul`: an optional `+` or `-` after the
skipped whitespace (`-` negates the parsed magnitude modulo `2^64`). -/
def splitSign (l : List Char) : Bool × List Char :=
  match l with
  | c :: r => if c = '+' then (false, r) else if c = '-' then (true, r) else (false, l)
  | [] => (false, [])

/-- Model of `std::stoul(s)` (base 10, 64-bit `unsigned long`): skip
whitespace, consume an optional sign, consume decimal digits.  Returns
`none` exactly when the C++ call throws: `invalid_argument` when no digit
was consumed, `out_of_range` when the magnitude exceeds `ULONG_MAX`.
A `-` sign negates modulo `2^64` (the `strtoul` contract). -/
def stoulModel (s : List Char) : Option Nat :=
  let t := s.dropWhile isSpaceChar
  let sp := splitSign t
  let ds := sp.2.takeWhile isDigitChar
  if ds = [] then none
  else
    let v := ds.foldl (fun a c => 10 * a + digitVal c) 0
    if ULONG_MAX < v then none
    else if sp.1 then some ((18446744073709551616 - v % 18446744073709551616) % 18446744073709551616)
    else some v

/-- Lowercase hexadecimal digit characters, as in the `hexmap` table of the
repository's `HexStr` helper (out-of-range inputs cannot arise from byte
nibbles and are mapped to `'f'`). -/
def hexDigitChar (n : Nat) : Char :=
  if n = 0 then '0' else if n = 1 then '1' else if n = 2 then '2'
  else if n = 3 then '3' else if n = 4 then '4' else if n = 5 then '5'
  else if n = 6 then '6' else if n = 7 then '7' else if n = 8 then '8'
  else if n = 9 then '9' else if n = 10 then 'a' else if n = 11 then 'b'
  else if n = 12 then 'c' else if n = 13 then 'd' else if n = 14 then 'e'
  else 'f'

/-- Modelled from the spec: `HexStr` (from the repository's string-encoding
utilities, not under `src/`) renders a byte vector as lowercase hex, high
nibble first. -/
def hexStr (bs : List Nat) : List Char :=
  bs.foldr (fun b acc => hexDigitChar (b / 16) :: hexDigitChar (b % 16) :: acc) []

/-- Fuel-based digit emitter for `std::to_string`: prepends the decimal
digits of `n` (most significant first) to `acc`.  Structural recursion on
the fuel keeps it kernel-computable; `toDecString` supplies enough fuel. -/
def toDecStringAux : Nat → Nat → List Char → List Char
  | 0, _, acc => acc
  | fuel + 1, n, acc =>
    if n = 0 then acc
    else toDecStringAux fuel (n / 10) (hexDigitChar (n % 10) :: acc)

/-- `std::to_string` for unsigned values: canonical decimal, `"0"` for 0. -/
def toDecString (n : Nat) : List Char :=
  if n = 0 then ['0'] else toDecStringAux (n + 1) n []

/-! ## Deposit address codec -/

/-- The part of a deposit address that the checksum is computed over:
`"s" + to_string(n) + "_" + dest + "_"` (everything up to and including the
trailing underscore), exactly as `GenerateDepositAddress` builds it. -/
def genPrefix (nSidechain : Nat) (strDestIn : List Char) : List Char :=
  's' :: (toDecString nSidechain ++ '_' :: (strDestIn ++ ['_']))

/-- `GenerateDepositAddress`.  Modelled from the spec in two respects: the
sidechain number is a parameter (`THIS_SIDECHAIN` is a constant defined in
the repository header, which is not under `src/`; the spec's `generate`
takes the index in `[0,255]` as an argument), and the SHA-256 primitive is
the parameter `sha` (an external collaborator returning a 32-byte digest).
Everything else follows the source: build the prefix, hash it, append the
first 6 characters of the lowercase hex rendering of the digest. -/
def GenerateDepositAddress (sha : List Char → List Nat) (nSidechain : Nat)
    (strDestIn : List Char) : List Char :=
  let strDepositAddress := genPrefix nSidechain strDestIn
  let strHash := hexStr (sha strDepositAddress)
  strDepositAddress ++ strHash.take 6

/-- `unsigned int delim1 = strAddressIn.find_first_of("_") + 1;`
(the `size_t` result, plus one, truncated into a 32-bit local). -/
def parseDelim1 (s : List Char) : Nat := U32 (findFirstOf s '_' + 1)

/-- `unsigned int delim2 = strAddressIn.find_last_of("_");`
(the `size_t` result truncated into a 32-bit local). -/
def parseDelim2 (s : List Char) : Nat := U32 (findLastOf s '_')

/-- `strAddressIn.substr(1, delim1)` — the substring handed to `std::stoul`. -/
def parseStrSidechain (s : List Char) : List Char :=
  substrC s 1 (parseDelim1 s)

/-- `strAddressIn.substr(delim1, delim2 - delim1)` — the destination
substring; the subtraction is 32-bit `unsigned int` arithmetic. -/
def parseStrAddressOut (s : List Char) : List Char :=
  substrC s (parseDelim1 s) (U32 (parseDelim2 s + 4294967296 - parseDelim1 s))

/-- `strAddressIn.substr(0, delim2 + 1)` — the prefix the checksum is
recomputed over; `delim2 + 1` is 32-bit `unsigned int` arithmetic. -/
def parseStrNoCheck (s : List Char) : List Char :=
  substrC s 0 (U32 (parseDelim2 s + 1))

/-- `strAddressIn.substr(delim2 + 1, strAddressIn.size())` — the claimed
checksum characters at the end of the address. -/
def parseStrCheck (s : List Char) : List Char :=
  substrC s (U32 (parseDelim2 s + 1)) s.length

/-- `ParseDepositAddress`.  The C++ signature is
`bool ParseDepositAddress(const std::string& in, std::string& strAddressOut,
unsigned int& nSidechainOut)`; the two by-reference out-parameters are
modelled by threading their values: the function takes their incoming
values and returns the triple (result, `strAddressOut`, `nSidechainOut`),
each `return false` yielding whatever the out-parameters hold at that
point.  The SHA-256 collaborator is the parameter `sha` as in the
generator.  Guard order, the dead `npos` comparisons (always false because
the truncated 32-bit locals can never equal the 64-bit `npos`) and every
early return follow the source line by line. -/
def ParseDepositAddress (sha : List Char → List Nat) (strAddressIn : List Char)
    (strAddressOut₀ : List Char) (nSidechainOut₀ : Nat) : Bool × List Char × Nat :=
  if strAddressIn = [] then (false, strAddressOut₀, nSidechainOut₀)
  else if strAddressIn.head? ≠ some 's' then (false, strAddressOut₀, nSidechainOut₀)
  else if parseDelim1 strAddressIn = NPOS ∨ parseDelim2 strAddressIn = NPOS then
    (false, strAddressOut₀, nSidechainOut₀)
  else if parseDelim1 strAddressIn ≥ strAddressIn.length ∨
      U32 (parseDelim2 strAddressIn + 1) ≥ strAddressIn.length then
    (false, strAddressOut₀, nSidechainOut₀)
  else if parseStrSidechain strAddressIn = [] then (false, strAddressOut₀, nSidechainOut₀)
  else
    match stoulModel (parseStrSidechain strAddressIn) with
    | none => (false, strAddressOut₀, nSidechainOut₀)
    | some v =>
      if U32 v > 255 then (false, strAddressOut₀, U32 v)
      else if parseStrAddressOut strAddressIn = [] then
        (false, parseStrAddressOut strAddressIn, U32 v)
      else if parseStrNoCheck strAddressIn = [] then
        (false, parseStrAddressOut strAddressIn, U32 v)
      else if (hexStr (sha (parseStrNoCheck strAddressIn))).length ≠ 64 then
        (false, parseStrAddressOut strAddressIn, U32 v)
      else if (parseStrCheck strAddressIn).length ≠ 6 then
        (false, parseStrAddressOut strAddressIn, U32 v)
      else if parseStrCheck strAddressIn ≠ (hexStr (sha (parseStrNoCheck strAddressIn))).take 6 then
        (false, parseStrAddressOut strAddressIn, U32 v)
      else (true, parseStrAddressOut strAddressIn, U32 v)

/-- A stand-in instantiation for the SHA-256 collaborator, used by concrete
witnesses: a constant 32-byte digest.  (The claims proved below hold for
every 32-byte-output hash function, so any instantiation exercises them.) -/
def shaZero : List Char → List Nat := fun _ => List.replicate 32 0

/-! ## Sidechain object model

The three discriminant constants live in the repository header (not under
`src/`).  Modelled from the spec: three distinct single-byte constants;
the claims below depend only on their distinctness and byte range. -/

def DB_SIDECHAIN_WT_OP : Nat := 87

def DB_SIDECHAIN_WTPRIME_OP : Nat := 80

def DB_SIDECHAIN_DEPOSIT_OP : Nat := 68

/-- Modelled from the spec: the `WT_UNSPENT` status constant (the status
enum lives in the repository header, not under `src/`); only its
distinctness from the other status values matters below. -/
def WT_UNSPENT : Nat := 0

/-- Modelled from the spec: the `WT_IN_WTPRIME` status constant. -/
def WT_IN_WTPRIME : Nat := 1

/-- Modelled from the spec: the `WT_SPENT` status constant. -/
def WT_SPENT : Nat := 2

/-- The `OP_RETURN` script opcode (defined in the script header, outside
`src/`); the spec calls it the reserved OP_RETURN-style marker byte. -/
def OP_RETURN : Nat := 106

/-- `SidechainWT`.  Field set and order modelled from the spec's
WithdrawalRequest and the source's `ToString`/comparators: the inherited
`sidechainop` tag (a serialized field, so free data here), the sidechain
index, destination string (as bytes), amount and mainchain fee, status
byte and the blind-WTX digest (32 bytes). -/
structure SidechainWT where
  sidechainop : Nat
  nSidechain : Nat
  strDestination : List Nat
  amount : Nat
  mainchainFee : Nat
  status : Nat
  hashBlindWTX : List Nat
  deriving DecidableEq

/-- `SidechainWTPrime` over an opaque transaction type `Tx` (the bundle
transaction is owned by the external transaction subsystem). -/
structure SidechainWTPrime (Tx : Type) where
  sidechainop : Nat
  nSidechain : Nat
  wtPrime : Tx
  nHeight : Nat
  status : Nat
  deriving DecidableEq

/-- `SidechainDeposit` over an opaque transaction type `Tx`. -/
structure SidechainDeposit (Tx : Type) where
  sidechainop : Nat
  nSidechain : Nat
  strDest : List Nat
  amtUserPayout : Nat
  dtx : Tx
  nBurnIndex : Nat
  nTx : Nat
  hashMainchainBlock : List Nat
  deriving DecidableEq

/-- The tagged union of the three concrete variants (the spec's
recommended rendering of the C++ `SidechainObj` hierarchy). -/
inductive SidechainObj (Tx : Type) where
  | wt : SidechainWT → SidechainObj Tx
  | wtprime : SidechainWTPrime Tx → SidechainObj Tx
  | deposit : SidechainDeposit Tx → SidechainObj Tx
  deriving DecidableEq

/-! ## Binary serialization primitives

Modelled from the spec: the per-field binary encoding (the
`SERIALIZE_METHODS` live in headers outside `src/`): fixed-width integers
little-endian, strings as a Bitcoin CompactSize length prefix followed by
the raw bytes, 256-bit digests as 32 raw bytes, nested transactions
delegated to the external transaction codec. -/

/-- Little-endian fixed-width encoding of `n` in `k` bytes. -/
def leEnc : Nat → Nat → List Nat
  | 0, _ => []
  | k + 1, n => n % 256 :: leEnc k (n / 256)

/-- Little-endian fixed-width decoder: reads `k` bytes, returns the value
and the unconsumed tail. -/
def leDec : Nat → List Nat → Option (Nat × List Nat)
  | 0, r => some (0, r)
  | _ + 1, [] => none
  | k + 1, b :: r => (leDec k r).map (fun p => (b + 256 * p.1, p.2))

/-- Bitcoin CompactSize encoding of a length. -/
def compactSizeEnc (n : Nat) : List Nat :=
  if n < 253 then [n]
  else if n < 65536 then 253 :: leEnc 2 n
  else if n < 4294967296 then 254 :: leEnc 4 n
  else 255 :: leEnc 8 n

/-- Bitcoin CompactSize decoder. -/
def compactSizeDec : List Nat → Option (Nat × List Nat)
  | [] => none
  | b :: r =>
    if b = 253 then leDec 2 r
    else if b = 254 then leDec 4 r
    else if b = 255 then leDec 8 r
    else some (b, r)

/-- String/byte-vector encoding: CompactSize length prefix then raw bytes. -/
def bytesEnc (s : List Nat) : List Nat := compactSizeEnc s.length ++ s

/-- String/byte-vector decoder. -/
def bytesDec (l : List Nat) : Option (List Nat × List Nat) :=
  match compactSizeDec l with
  | none => none
  | some (n, r) => if n ≤ r.length then some (r.take n, r.drop n) else none

/-- Read a single byte off the front of the buffer. -/
def readByte : List Nat → Option (Nat × List Nat)
  | [] => none
  | b :: r => some (b, r)

/-- Read a 32-byte digest off the front of the buffer. -/
def bytes32Dec (l : List Nat) : Option (List Nat × List Nat) :=
  if 32 ≤ l.length then some (l.take 32, l.drop 32) else none

/-! ## Variant serializers (tag byte first, fields in declared order) -/

/-- Canonical serialization of a `SidechainWT`. -/
def serWT (w : SidechainWT) : List Nat :=
  w.sidechainop :: w.nSidechain :: (bytesEnc w.strDestination ++ leEnc 8 w.amount ++
    leEnc 8 w.mainchainFee ++ w.status :: w.hashBlindWTX)

/-- Deserializer for `SidechainWT` (trailing bytes are ignored, as
`CDataStream::Unserialize` reads exactly the fields it needs). -/
def deserWT (l : List Nat) : Option SidechainWT :=
  match readByte l with
  | none => none
  | some (op, r1) =>
  match readByte r1 with
  | none => none
  | some (nsc, r2) =>
  match bytesDec r2 with
  | none => none
  | some (dst, r3) =>
  match leDec 8 r3 with
  | none => none
  | some (amt, r4) =>
  match leDec 8 r4 with
  | none => none
  | some (fee, r5) =>
  match readByte r5 with
  | none => none
  | some (st, r6) =>
  match bytes32Dec r6 with
  | none => none
  | some (h, _) => some ⟨op, nsc, dst, amt, fee, st, h⟩

/-- Canonical serialization of a `SidechainWTPrime`, delegating the bundle
transaction to the external transaction encoder `txEnc`. -/
def serWTPrime {Tx : Type} (txEnc : Tx → List Nat) (w : SidechainWTPrime Tx) : List Nat :=
  w.sidechainop :: w.nSidechain :: (txEnc w.wtPrime ++ leEnc 4 w.nHeight ++ [w.status])

/-- Deserializer for `SidechainWTPrime`, delegating to the external
transaction decoder `txDec`. -/
def deserWTPrime {Tx : Type} (txDec : List Nat → Option (Tx × List Nat))
    (l : List Nat) : Option (SidechainWTPrime Tx) :=
  match readByte l with
  | none => none
  | some (op, r1) =>
  match readByte r1 with
  | none => none
  | some (nsc, r2) =>
  match txDec r2 with
  | none => none
  | some (tx, r3) =>
  match leDec 4 r3 with
  | none => none
  | some (ht, r4) =>
  match readByte r4 with
  | none => none
  | some (st, _) => some ⟨op, nsc, tx, ht, st⟩

/-- Canonical serialization of a `SidechainDeposit`. -/
def serDeposit {Tx : Type} (txEnc : Tx → List Nat) (d : SidechainDeposit Tx) : List Nat :=
  d.sidechainop :: d.nSidechain :: (bytesEnc d.strDest ++ leEnc 8 d.amtUserPayout ++
    txEnc d.dtx ++ leEnc 4 d.nBurnIndex ++ leEnc 4 d.nTx ++ d.hashMainchainBlock)

/-- Deserializer for `SidechainDeposit`. -/
def deserDeposit {Tx : Type} (txDec : List Nat → Option (Tx × List Nat))
    (l : List Nat) : Option (SidechainDeposit Tx) :=
  match readByte l with
  | none => none
  | some (op, r1) =>
  match readByte r1 with
  | none => none
  | some (nsc, r2) =>
  match bytesDec r2 with
  | none => none
  | some (dst, r3) =>
  match leDec 8 r3 with
  | none => none
  | some (amt, r4) =>
  match txDec r4 with
  | none => none
  | some (tx, r5) =>
  match leDec 4 r5 with
  | none => none
  | some (bi, r6) =>
  match leDec 4 r6 with
  | none => none
  | some (ti, r7) =>
  match bytes32Dec r7 with
  | none => none
  | some (h, _) => some ⟨op, nsc, dst, amt, tx, bi, ti, h⟩

/-- The canonical object serialization (tag byte first): the bytes
`SidechainObj::GetScript` streams into `ds` before adding the header. -/
def serObj {Tx : Type} (txEnc : Tx → List Nat) : SidechainObj Tx → List Nat
  | .wt w => serWT w
  | .wtprime w => serWTPrime txEnc w
  | .deposit d => serDeposit txEnc d

/-- The stored discriminant of an object (the `sidechainop` field of the
underlying C++ object). -/
def SidechainObj.tag {Tx : Type} : SidechainObj Tx → Nat
  | .wt w => w.sidechainop
  | .wtprime w => w.sidechainop
  | .deposit d => d.sidechainop

/-- `SidechainObj::GetScript`: serialize the object by dispatching on the
stored `sidechainop` (each branch serializes via the matching variant's
serializer), then prepend the fixed 5-byte header `OP_RETURN 0xAC 0xDC
0xF6 0x6F`.  When the stored tag matches no constant the C++ streams
nothing and the script is just the header; a tag equal to a *different*
variant's constant reinterprets the object's memory, which has no
layout-independent meaning — that branch is modelled like the no-match
branch and is excluded by the validity predicate used in the claims. -/
def SidechainObj.GetScript {Tx : Type} (txEnc : Tx → List Nat)
    (obj : SidechainObj Tx) : List Nat :=
  let vch : List Nat :=
    match obj with
    | .wt w => if w.sidechainop = DB_SIDECHAIN_WT_OP then serWT w else []
    | .wtprime w => if w.sidechainop = DB_SIDECHAIN_WTPRIME_OP then serWTPrime txEnc w else []
    | .deposit d => if d.sidechainop = DB_SIDECHAIN_DEPOSIT_OP then serDeposit txEnc d else []
  OP_RETURN :: 172 :: 220 :: 246 :: 111 :: vch

/-- `ParseSidechainObj`: empty input yields no object; otherwise dispatch
on the first byte and run the matching variant's deserializer over the
whole buffer (the C++ stream starts at byte 0, so the tag byte is read
again as the `sidechainop` field); a first byte matching no constant
yields no object. -/
def ParseSidechainObj {Tx : Type} (txDec : List Nat → Option (Tx × List Nat))
    (vch : List Nat) : Option (SidechainObj Tx) :=
  match vch with
  | [] => none
  | b :: _ =>
    if b = DB_SIDECHAIN_WT_OP then (deserWT vch).map SidechainObj.wt
    else if b = DB_SIDECHAIN_WTPRIME_OP then (deserWTPrime txDec vch).map SidechainObj.wtprime
    else if b = DB_SIDECHAIN_DEPOSIT_OP then (deserDeposit txDec vch).map SidechainObj.deposit
    else none

/-! ## Validity of field assignments -/

/-- Valid field assignment for a `SidechainWT`: the tag invariant and the
C++ field types' ranges (`uint8_t` index and status, 64-bit amounts,
byte-string destination, 32-byte digest). -/
def ValidWT (w : SidechainWT) : Prop :=
  w.sidechainop = DB_SIDECHAIN_WT_OP ∧ w.nSidechain < 256 ∧
    w.strDestination.length < 18446744073709551616 ∧
    (∀ b ∈ w.strDestination, b < 256) ∧
    w.amount < 18446744073709551616 ∧ w.mainchainFee < 18446744073709551616 ∧
    w.status < 256 ∧ w.hashBlindWTX.length = 32 ∧ (∀ b ∈ w.hashBlindWTX, b < 256)

/-- Valid field assignment for a `SidechainWTPrime`. -/
def ValidWTPrime {Tx : Type} (w : SidechainWTPrime Tx) : Prop :=
  w.sidechainop = DB_SIDECHAIN_WTPRIME_OP ∧ w.nSidechain < 256 ∧
    w.nHeight < 4294967296 ∧ w.status < 256

/-- Valid field assignment for a `SidechainDeposit`. -/
def ValidDeposit {Tx : Type} (d : SidechainDeposit Tx) : Prop :=
  d.sidechainop = DB_SIDECHAIN_DEPOSIT_OP ∧ d.nSidechain < 256 ∧
    d.strDest.length < 18446744073709551616 ∧ (∀ b ∈ d.strDest, b < 256) ∧
    d.amtUserPayout < 18446744073709551616 ∧
    d.nBurnIndex < 4294967296 ∧ d.nTx < 4294967296 ∧
    d.hashMainchainBlock.length = 32 ∧ (∀ b ∈ d.hashMainchainBlock, b < 256)

/-- Valid field assignment for any variant. -/
def ValidObj {Tx : Type} : SidechainObj Tx → Prop
  | .wt w => ValidWT w
  | .wtprime w => ValidWTPrime w
  | .deposit d => ValidDeposit d

/-- `SidechainObj::GetHash` dispatch: the source declares `uint256 ret;`
(all zeroes), overwrites it with `SerializeHash` of the object
reinterpreted as the variant selected by the stored `sidechainop`, and
returns it; when the tag matches none of the three constants `ret` is
returned untouched.  The three branch digests are abstracted as
parameters (cross-variant pointer reinterpretation is memory-layout
dependent); the dispatch structure and the fall-through default are
modelled exactly. -/
def GetHashDispatch (hWT hWTPrime hDeposit : List Nat) (sidechainop : Nat) : List Nat :=
  if sidechainop = DB_SIDECHAIN_WT_OP then hWT
  else if sidechainop = DB_SIDECHAIN_WTPRIME_OP then hWTPrime
  else if sidechainop = DB_SIDECHAIN_DEPOSIT_OP then hDeposit
  else List.replicate 32 0

/-! ## Selection helpers -/

/-- Semantics of the C++ `v.erase(std::remove_if(v.begin(), v.end(), p),
v.end())` idiom: the surviving contents of `v` are exactly the elements
not satisfying `p`, in their original order.  (In-place mutation is
modelled by returning the new contents.) -/
def eraseRemoveIf {α : Type} (p : α → Bool) (l : List α) : List α :=
  l.filter (fun a => !(p a))

/-- `SelectUnspentWT`: erase–remove_if with predicate
`wt.status != WT_UNSPENT`. -/
def SelectUnspentWT (vWT : List SidechainWT) : List SidechainWT :=
  eraseRemoveIf (fun wt => wt.status != WT_UNSPENT) vWT

/-! ## Concrete collaborator instantiations for witnesses -/

/-- Trivial transaction type for witnesses: a transaction with no
observable content and an empty canonical encoding. -/
def unitTxEnc : Unit → List Nat := fun _ => []

/-- Decoder matching `unitTxEnc`; satisfies the round-trip contract. -/
def unitTxDec : List Nat → Option (Unit × List Nat) := fun r => some ((), r)

/-! # Helper lemmas -/

/-! ## `findCharIdx` and the `find_first_of` / `find_last_of` models -/

theorem findCharIdx_eq_none {c : Char} {l : List Char} (h : c ∉ l) :
    findCharIdx c l = none := by
  induction l with
  | nil => rfl
  | cons a t ih =>
    simp only [List.mem_cons, not_or] at h
    rw [findCharIdx, if_neg (fun e => h.1 e.symm), ih h.2]
    rfl

theorem findCharIdx_cons_self (c : Char) (l : List Char) :
    findCharIdx c (c :: l) = some 0 := by
  rw [findCharIdx, if_pos rfl]

theorem findCharIdx_append {c : Char} {l : List Char} (r : List Char) (h : c ∉ l) :
    findCharIdx c (l ++ r) = (findCharIdx c r).map (· + l.length) := by
  induction l with
  | nil => simp
  | cons a t ih =>
    simp only [List.mem_cons, not_or] at h
    rw [List.cons_append, findCharIdx, if_neg (fun e => h.1 e.symm), ih h.2,
      Option.map_map]
    cases findCharIdx c r with
    | none => rfl
    | some i => simp [Function.comp, Nat.add_assoc]

/-- The last underscore of `pre ++ '_' :: sfx` when `sfx` has none: at
index `pre.length`. -/
theorem findLastOf_last_underscore (pre sfx : List Char) (h : '_' ∉ sfx) :
    findLastOf (pre ++ '_' :: sfx) '_' = pre.length := by
  rw [findLastOf, List.reverse_append, List.reverse_cons, List.append_assoc,
    List.singleton_append, findCharIdx_append _ (by simpa using h),
    findCharIdx_cons_self]
  simp only [Option.map_some', List.length_reverse, List.length_append,
    List.length_cons]
  omega

/-! ## Hex characters and `hexStr` -/

theorem hexDigitChar_eq_f {n : Nat} (h : 15 ≤ n) : hexDigitChar n = 'f' := by
  unfold hexDigitChar
  repeat rw [if_neg (by omega)]

theorem hexDigitChar_ne_underscore (n : Nat) : hexDigitChar n ≠ '_' := by
  by_cases h : n < 15
  · interval_cases n <;> decide
  · rw [hexDigitChar_eq_f (by omega)]; decide

theorem hexStr_cons (b : Nat) (t : List Nat) :
    hexStr (b :: t) = hexDigitChar (b / 16) :: hexDigitChar (b % 16) :: hexStr t := rfl

theorem length_hexStr (bs : List Nat) : (hexStr bs).length = 2 * bs.length := by
  induction bs with
  | nil => rfl
  | cons b t ih => rw [hexStr_cons]; simp only [List.length_cons, ih]; omega

theorem not_mem_hexStr (bs : List Nat) : '_' ∉ hexStr bs := by
  induction bs with
  | nil => simp [hexStr]
  | cons b t ih =>
    rw [hexStr_cons]
    simp only [List.mem_cons, not_or]
    exact ⟨fun e => hexDigitChar_ne_underscore _ e.symm,
      fun e => hexDigitChar_ne_underscore _ e.symm, ih⟩

theorem not_mem_take_hexStr (k : Nat) (bs : List Nat) : '_' ∉ (hexStr bs).take k :=
  fun h => not_mem_hexStr bs (List.take_subset _ _ h)

/-! ## Decimal digit characters and `toDecString` -/

theorem digit_char_props {d : Nat} (h : d < 10) :
    isDigitChar (hexDigitChar d) = true ∧ isSpaceChar (hexDigitChar d) = false ∧
      hexDigitChar d ≠ '+' ∧ hexDigitChar d ≠ '-' ∧ hexDigitChar d ≠ '_' ∧
      digitVal (hexDigitChar d) = d := by
  interval_cases d <;> exact ⟨by decide, by decide, by decide, by decide, by decide, by decide⟩

theorem toDecStringAux_eq (fuel : Nat) :
    ∀ n acc, n < fuel →
      toDecStringAux fuel n acc = (Nat.digits 10 n).reverse.map hexDigitChar ++ acc := by
  induction fuel with
  | zero => exact fun n acc h => absurd h (Nat.not_lt_zero n)
  | succ fuel ih =>
    intro n acc h
    by_cases h0 : n = 0
    · subst h0; simp [toDecStringAux]
    · have hlt : n / 10 < fuel := by
        have h2 := Nat.div_lt_self (Nat.pos_of_ne_zero h0) (by norm_num : 1 < 10)
        omega
      rw [toDecStringAux, if_neg h0, ih (n / 10) (hexDigitChar (n % 10) :: acc) hlt,
        @Nat.digits_def' 10 (by norm_num) n (Nat.pos_of_ne_zero h0)]
      simp [List.map_append]

theorem toDecString_eq_of_ne_zero {n : Nat} (h : n ≠ 0) :
    toDecString n = (Nat.digits 10 n).reverse.map hexDigitChar := by
  rw [toDecString, if_neg h, toDecStringAux_eq (n + 1) n [] (Nat.lt_succ_self n),
    List.append_nil]

theorem toDecString_ne_nil (n : Nat) : toDecString n ≠ [] := by
  by_cases h : n = 0
  · subst h; decide
  · rw [toDecString_eq_of_ne_zero h]
    simp [Nat.digits_ne_nil_iff_ne_zero, h]

theorem mem_toDecString {n : Nat} {c : Char} (h : c ∈ toDecString n) :
    ∃ d, d < 10 ∧ c = hexDigitChar d := by
  by_cases h0 : n = 0
  · subst h0; simp only [toDecString, if_pos rfl, List.mem_singleton] at h
    exact ⟨0, by norm_num, by simpa using h⟩
  · rw [toDecString_eq_of_ne_zero h0] at h
    simp only [List.mem_map, List.mem_reverse] at h
    obtain ⟨d, hd, rfl⟩ := h
    exact ⟨d, Nat.digits_lt_base (by norm_num) hd, rfl⟩

theorem not_mem_underscore_toDecString (n : Nat) : '_' ∉ toDecString n := by
  intro h
  obtain ⟨d, hd, he⟩ := mem_toDecString h
  exact (digit_char_props hd).2.2.2.2.1 he.symm

theorem length_toDecString_le {n : Nat} (h : n ≤ 255) :
    (toDecString n).length ≤ 3 := by
  by_cases h0 : n = 0
  · subst h0; decide
  · rw [toDecString_eq_of_ne_zero h0]
    simp only [List.length_map, List.length_reverse]
    have h3 : (Nat.digits 10 255).length = 3 := by
      rw [@Nat.digits_def' 10 (by norm_num) 255 (by norm_num)]
      norm_num
    calc (Nat.digits 10 n).length ≤ (Nat.digits 10 255).length :=
          Nat.le_digits_len_le 10 n 255 h
      _ = 3 := h3

/-! ## `stoulModel` on a canonical decimal followed by an underscore -/

theorem takeWhile_append_cons {α : Type} {p : α → Bool} {l : List α}
    (hl : ∀ a ∈ l, p a = true) {c : α} (hc : p c = false) (t : List α) :
    List.takeWhile p (l ++ c :: t) = l := by
  induction l with
  | nil => simp [List.takeWhile_cons, hc]
  | cons a r ih =>
    rw [List.cons_append, List.takeWhile_cons, if_pos (hl a (by simp)),
      ih (fun a ha => hl a (by simp [ha]))]

theorem foldl_digits (l : List Nat) (hl : ∀ d ∈ l, d < 10) (a : Nat) :
    List.foldl (fun acc c => 10 * acc + digitVal c) a (l.reverse.map hexDigitChar) =
      a * 10 ^ l.length + Nat.ofDigits 10 l := by
  induction l generalizing a with
  | nil => simp [Nat.ofDigits_nil]
  | cons d tl ih =>
    rw [List.reverse_cons, List.map_append, List.foldl_append,
      ih (fun x hx => hl x (by simp [hx])) a]
    simp only [List.map_cons, List.map_nil, List.foldl_cons, List.foldl_nil,
      Nat.ofDigits_cons, List.length_cons,
      (digit_char_props (hl d (by simp))).2.2.2.2.2]
    ring

theorem stoulModel_decimal (n : Nat) (hn : n < 18446744073709551616) (t : List Char) :
    stoulModel (toDecString n ++ '_' :: t) = some n := by
  obtain ⟨c0, r, hc⟩ := List.exists_cons_of_ne_nil (toDecString_ne_nil n)
  have hc0 : c0 ∈ toDecString n := by rw [hc]; simp
  obtain ⟨d0, hd0, he0⟩ := mem_toDecString hc0
  have hdig : ∀ a ∈ toDecString n, isDigitChar a = true := by
    intro a ha
    obtain ⟨d, hd, rfl⟩ := mem_toDecString ha
    exact (digit_char_props hd).1
  have hdrop : (toDecString n ++ '_' :: t).dropWhile isSpaceChar =
      toDecString n ++ '_' :: t := by
    rw [hc, List.cons_append, List.dropWhile_cons,
      if_neg (by rw [he0, (digit_char_props hd0).2.1]; simp)]
  have hsign : splitSign (toDecString n ++ '_' :: t) = (false, toDecString n ++ '_' :: t) := by
    rw [hc, List.cons_append, splitSign,
      if_neg (by rw [he0]; exact (digit_char_props hd0).2.2.1),
      if_neg (by rw [he0]; exact (digit_char_props hd0).2.2.2.1)]
  have htake : (toDecString n ++ '_' :: t).takeWhile isDigitChar = toDecString n :=
    takeWhile_append_cons hdig (by decide) t
  have hval : (toDecString n).foldl (fun a c => 10 * a + digitVal c) 0 = n := by
    by_cases h0 : n = 0
    · subst h0; decide
    · rw [toDecString_eq_of_ne_zero h0,
        foldl_digits _ (fun d hd => Nat.digits_lt_base (by norm_num) hd) 0,
        Nat.ofDigits_digits]
      ring
  rw [stoulModel]
  simp only [hdrop, hsign, htake, hval]
  rw [if_neg (by simp [toDecString_ne_nil n]), if_neg (by unfold ULONG_MAX; omega)]
  simp

/-! ## The shape of a generated address -/

theorem findCharIdx_cons_ne {c a : Char} (h : ¬a = c) (l : List Char) :
    findCharIdx c (a :: l) = (findCharIdx c l).map (· + 1) := by
  rw [findCharIdx, if_neg h]

theorem findFirstOf_eq {c : Char} {s : List Char} {i : Nat}
    (h : findCharIdx c s = some i) : findFirstOf s c = i := by
  rw [findFirstOf, h]

/-- A generated-prefix plus arbitrary 6-character tail, in head-normal
form. -/
theorem genPrefix_append_norm (n : Nat) (dest tail : List Char) :
    genPrefix n dest ++ tail = 's' :: (toDecString n ++ '_' :: (dest ++ '_' :: tail)) := by
  simp [genPrefix, List.append_assoc]

/-- The same string split after the `"s<n>_"` part. -/
theorem genPrefix_append_split1 (n : Nat) (dest tail : List Char) :
    genPrefix n dest ++ tail = ('s' :: (toDecString n ++ ['_'])) ++ (dest ++ '_' :: tail) := by
  simp [genPrefix, List.append_assoc]

/-- The same string split before its final underscore-plus-tail. -/
theorem genPrefix_append_split2 (n : Nat) (dest tail : List Char) :
    genPrefix n dest ++ tail = ('s' :: (toDecString n ++ '_' :: dest)) ++ '_' :: tail := by
  simp [genPrefix, List.append_assoc]

theorem length_genPrefix (n : Nat) (dest : List Char) :
    (genPrefix n dest).length = (toDecString n).length + dest.length + 3 := by
  simp [genPrefix]
  omega

theorem genAppend_ne_nil (n : Nat) (dest tail : List Char) :
    genPrefix n dest ++ tail ≠ [] := by
  rw [genPrefix_append_norm]
  exact List.cons_ne_nil _ _

theorem genAppend_head (n : Nat) (dest tail : List Char) :
    (genPrefix n dest ++ tail).head? = some 's' := by
  rw [genPrefix_append_norm]
  rfl

/-- The first underscore of a generated address is the one written after
the decimal sidechain number, so `delim1` lands just past it. -/
theorem parseDelim1_genAppend (n : Nat) (dest tail : List Char)
    (h : (toDecString n).length + 2 < 4294967296) :
    parseDelim1 (genPrefix n dest ++ tail) = (toDecString n).length + 2 := by
  have h1 : findCharIdx '_' (genPrefix n dest ++ tail) =
      some ((toDecString n).length + 1) := by
    rw [genPrefix_append_norm,
      findCharIdx_cons_ne (by decide) _,
      findCharIdx_append _ (not_mem_underscore_toDecString n),
      findCharIdx_cons_self]
    simp
  rw [parseDelim1, findFirstOf_eq h1, U32, Nat.mod_eq_of_lt (by omega)]

/-- The substring handed to `std::stoul`: the decimal digits, the
underscore after them, and one more character. -/
theorem parseStrSidechain_genAppend (n : Nat) (dest tail : List Char)
    (h : (toDecString n).length + 2 < 4294967296) :
    parseStrSidechain (genPrefix n dest ++ tail) =
      toDecString n ++ '_' :: (dest ++ '_' :: tail).take 1 := by
  rw [parseStrSidechain, parseDelim1_genAppend n dest tail h, substrC,
    genPrefix_append_norm, List.drop_one, List.tail_cons,
    show (toDecString n).length + 2 = (toDecString n).length + 2 from rfl]
  rw [List.take_append]
  simp [List.take_succ_cons]

/-- The last underscore of a generated address with an underscore-free
6-character tail is the one before the tail. -/
theorem parseDelim2_genAppend (n : Nat) (dest tail : List Char)
    (htail : '_' ∉ tail)
    (h : (toDecString n).length + dest.length + 2 < 4294967296) :
    parseDelim2 (genPrefix n dest ++ tail) =
      (toDecString n).length + dest.length + 2 := by
  have h2 : findLastOf (genPrefix n dest ++ tail) '_' =
      (toDecString n).length + dest.length + 2 := by
    rw [genPrefix_append_split2,
      findLastOf_last_underscore ('s' :: (toDecString n ++ '_' :: dest)) tail htail]
    simp
    omega
  rw [parseDelim2, h2, U32, Nat.mod_eq_of_lt (by omega)]

theorem genAppend_take_prefix (n : Nat) (dest tail : List Char) :
    (genPrefix n dest ++ tail).take ((toDecString n).length + dest.length + 3) =
      genPrefix n dest := by
  have := List.take_left (genPrefix n dest) tail
  rwa [length_genPrefix] at this

theorem genAppend_drop_prefix (n : Nat) (dest tail : List Char) :
    (genPrefix n dest ++ tail).drop ((toDecString n).length + dest.length + 3) = tail := by
  have := List.drop_left (genPrefix n dest) tail
  rwa [length_genPrefix] at this

theorem genAppend_drop_delim1 (n : Nat) (dest tail : List Char) :
    (genPrefix n dest ++ tail).drop ((toDecString n).length + 2) = dest ++ '_' :: tail := by
  have h1 : ('s' :: (toDecString n ++ ['_'])).length = (toDecString n).length + 2 := by
    simp
  have := List.drop_left ('s' :: (toDecString n ++ ['_'])) (dest ++ '_' :: tail)
  rw [h1] at this
  rw [genPrefix_append_split1, this]

/-! ## The two main walks through `ParseDepositAddress` -/

/-- Universal tamper rejection: a generated prefix followed by *any*
6-character tail other than the correct checksum is rejected.  No bound on
the destination is needed: when the truncated 32-bit delimiters go wrong
on a huge address, each possible landing spot fails one of the parser's
guards (empty destination substring, empty checksum-prefix substring, or a
claimed checksum whose length is not 6); the only way to reach the final
comparison with a 6-character claimed checksum is `delim2 + 1 =` the true
prefix length, and there the comparison itself fails. -/
theorem parse_reject_of_bad_tail (sha : List Char → List Nat)
    (hsha : ∀ s, (sha s).length = 32) (n : Nat) (hn : n ≤ 255)
    (dest tail : List Char) (h6 : tail.length = 6)
    (hneq : tail ≠ (hexStr (sha (genPrefix n dest))).take 6)
    (o0 : List Char) (n0 : Nat) :
    (ParseDepositAddress sha (genPrefix n dest ++ tail) o0 n0).1 = false := by
  have hd3 : (toDecString n).length ≤ 3 := length_toDecString_le hn
  have hd1 : 0 < (toDecString n).length := List.length_pos.mpr (toDecString_ne_nil n)
  have hlen : (genPrefix n dest ++ tail).length =
      (toDecString n).length + dest.length + 9 := by
    rw [List.length_append, length_genPrefix, h6]
  have hdelim1 := parseDelim1_genAppend n dest tail (by omega)
  have hside := parseStrSidechain_genAppend n dest tail (by omega)
  have hstoul : stoulModel (parseStrSidechain (genPrefix n dest ++ tail)) = some n := by
    rw [hside]; exact stoulModel_decimal n (by omega) _
  have hq32 : parseDelim2 (genPrefix n dest ++ tail) < 4294967296 := by
    rw [parseDelim2, U32]; omega
  rw [ParseDepositAddress, if_neg (genAppend_ne_nil n dest tail),
    if_neg (by rw [genAppend_head n dest tail]; simp),
    if_neg (by
      rw [not_or, hdelim1]
      refine ⟨by rw [NPOS]; omega, ?_⟩
      rw [NPOS]; omega)]
  by_cases hp : U32 (parseDelim2 (genPrefix n dest ++ tail) + 1) ≥
      (genPrefix n dest ++ tail).length
  · rw [if_pos (Or.inr hp)]
  · rw [if_neg (by rw [not_or, hdelim1]; exact ⟨by rw [hlen]; omega, hp⟩),
      if_neg (by rw [hside]; simp [toDecString_ne_nil n])]
    simp only [hstoul]
    rw [if_neg (by rw [U32, Nat.mod_eq_of_lt (by omega)]; omega)]
    by_cases hout : parseStrAddressOut (genPrefix n dest ++ tail) = []
    · rw [if_pos hout]
    · rw [if_neg hout]
      have hnc : parseStrNoCheck (genPrefix n dest ++ tail) =
          (genPrefix n dest ++ tail).take
            (U32 (parseDelim2 (genPrefix n dest ++ tail) + 1)) := by
        rw [parseStrNoCheck, substrC, List.drop_zero]
      by_cases hp0 : U32 (parseDelim2 (genPrefix n dest ++ tail) + 1) = 0
      · rw [if_pos (by rw [hnc, hp0]; rfl)]
      · rw [if_neg (by
            rw [hnc]
            simp [List.take_eq_nil_iff, hp0, genAppend_ne_nil n dest tail]),
          if_neg (by rw [length_hexStr, hsha]; norm_num)]
        have hck : (parseStrCheck (genPrefix n dest ++ tail)).length =
            (genPrefix n dest ++ tail).length -
              U32 (parseDelim2 (genPrefix n dest ++ tail) + 1) := by
          rw [parseStrCheck, substrC, List.length_take, List.length_drop]
          exact min_eq_right (Nat.sub_le _ _)
        by_cases hsix : (parseStrCheck (genPrefix n dest ++ tail)).length = 6
        · rw [if_neg (by rw [hsix]; simp)]
          have hpL : U32 (parseDelim2 (genPrefix n dest ++ tail) + 1) =
              (toDecString n).length + dest.length + 3 := by
            rw [hck, hlen] at hsix
            rw [hlen] at hp
            omega
          have hckv : parseStrCheck (genPrefix n dest ++ tail) = tail := by
            rw [parseStrCheck, substrC, hpL, genAppend_drop_prefix,
              List.take_of_length_le (by rw [h6, hlen]; omega)]
          have hncv : parseStrNoCheck (genPrefix n dest ++ tail) = genPrefix n dest := by
            rw [hnc, hpL, genAppend_take_prefix]
          rw [if_pos (by rw [hckv, hncv]; exact hneq)]
        · rw [if_pos hsix]

/-- Successful round trip of a generated address whose total length fits
the 32-bit delimiter locals: the parser accepts and returns exactly the
destination and the sidechain number. -/
theorem parse_generate_accept (sha : List Char → List Nat)
    (hsha : ∀ s, (sha s).length = 32) (n : Nat) (hn : n ≤ 255)
    (dest : List Char) (hdne : dest ≠ [])
    (hblen : dest.length + 12 < 4294967296) (o0 : List Char) (n0 : Nat) :
    ParseDepositAddress sha (GenerateDepositAddress sha n dest) o0 n0 =
      (true, dest, n) := by
  have hgen : GenerateDepositAddress sha n dest =
      genPrefix n dest ++ (hexStr (sha (genPrefix n dest))).take 6 := rfl
  set chk := (hexStr (sha (genPrefix n dest))).take 6 with hchk
  have h6 : chk.length = 6 := by
    rw [hchk, List.length_take, length_hexStr, hsha]
    decide
  have hnotmem : '_' ∉ chk := not_mem_take_hexStr 6 _
  have hd3 : (toDecString n).length ≤ 3 := length_toDecString_le hn
  have hd1 : 0 < (toDecString n).length := List.length_pos.mpr (toDecString_ne_nil n)
  have hlen : (genPrefix n dest ++ chk).length =
      (toDecString n).length + dest.length + 9 := by
    rw [List.length_append, length_genPrefix, h6]
  have hdelim1 := parseDelim1_genAppend n dest chk (by omega)
  have hdelim2 := parseDelim2_genAppend n dest chk hnotmem (by omega)
  have hside := parseStrSidechain_genAppend n dest chk (by omega)
  have hstoul : stoulModel (parseStrSidechain (genPrefix n dest ++ chk)) = some n := by
    rw [hside]; exact stoulModel_decimal n (by omega) _
  have hout : parseStrAddressOut (genPrefix n dest ++ chk) = dest := by
    rw [parseStrAddressOut, hdelim1, hdelim2, substrC, U32]
    have harith : (toDecString n).length + dest.length + 2 + 4294967296 -
        ((toDecString n).length + 2) = dest.length + 4294967296 := by omega
    rw [harith, Nat.add_mod_right, Nat.mod_eq_of_lt (by omega),
      genAppend_drop_delim1]
    exact List.take_left dest ('_' :: chk)
  have hncv : parseStrNoCheck (genPrefix n dest ++ chk) = genPrefix n dest := by
    rw [parseStrNoCheck, substrC, List.drop_zero, hdelim2, U32,
      Nat.mod_eq_of_lt (by omega),
      show (toDecString n).length + dest.length + 2 + 1 =
        (toDecString n).length + dest.length + 3 from by omega,
      genAppend_take_prefix]
  have hckv : parseStrCheck (genPrefix n dest ++ chk) = chk := by
    rw [parseStrCheck, substrC, hdelim2, U32, Nat.mod_eq_of_lt (by omega),
      show (toDecString n).length + dest.length + 2 + 1 =
        (toDecString n).length + dest.length + 3 from by omega,
      genAppend_drop_prefix, List.take_of_length_le (by rw [h6, hlen]; omega)]
  rw [hgen, ParseDepositAddress, if_neg (genAppend_ne_nil n dest chk),
    if_neg (by rw [genAppend_head n dest chk]; simp),
    if_neg (by
      rw [not_or, hdelim1, hdelim2, NPOS]
      exact ⟨by omega, by omega⟩),
    if_neg (by
      rw [not_or, hdelim1, hdelim2, hlen, U32, Nat.mod_eq_of_lt (by omega)]
      exact ⟨by omega, by omega⟩),
    if_neg (by rw [hside]; simp [toDecString_ne_nil n])]
  simp only [hstoul]
  rw [if_neg (by rw [U32, Nat.mod_eq_of_lt (by omega)]; omega),
    if_neg (by rw [hout]; exact hdne),
    if_neg (by rw [hncv]; simp [genPrefix]),
    if_neg (by rw [length_hexStr, hsha]; norm_num),
    if_neg (by rw [hckv, h6]; simp),
    if_neg (by rw [hckv, hncv, hchk]; simp),
    hout, U32, Nat.mod_eq_of_lt (by omega)]

/-! # Claim theorems: deposit address codec -/

/-- Rejection of the generator's own output once the final underscore sits
at position 2^32 + 3: the truncated 32-bit `delim2` collapses to
`delim1`, the extracted destination substring is empty, and the parser
returns `false`.  Stated for any destination of length exactly 2^32 so
that no proof step forces the kernel to evaluate a 2^32-element list. -/
theorem parse_generate_huge_reject (dest : List Char)
    (hdlen : dest.length = 4294967296) :
    (ParseDepositAddress shaZero (GenerateDepositAddress shaZero 0 dest) [] 0).1 =
      false := by
  have hgen : GenerateDepositAddress shaZero 0 dest =
      genPrefix 0 dest ++ (hexStr (shaZero (genPrefix 0 dest))).take 6 := rfl
  set chk := (hexStr (shaZero (genPrefix 0 dest))).take 6 with hchk
  have h6 : chk.length = 6 := by
    rw [hchk, List.length_take, length_hexStr]
    simp [shaZero]
  have hnotmem : '_' ∉ chk := not_mem_take_hexStr 6 _
  have hd : (toDecString 0).length = 1 := by decide
  have hlen : (genPrefix 0 dest ++ chk).length = 4294967306 := by
    rw [List.length_append, length_genPrefix, h6, hd, hdlen]
  have hdelim1 : parseDelim1 (genPrefix 0 dest ++ chk) = 3 := by
    have h := parseDelim1_genAppend 0 dest chk (by rw [hd]; norm_num)
    rw [hd] at h
    exact h
  have hlast : findLastOf (genPrefix 0 dest ++ chk) '_' = 4294967299 := by
    rw [genPrefix_append_split2, findLastOf_last_underscore _ chk hnotmem]
    simp only [List.length_cons, List.length_append, hd, hdlen]
  have hq : parseDelim2 (genPrefix 0 dest ++ chk) = 3 := by
    rw [parseDelim2, hlast, U32]
  have hside := parseStrSidechain_genAppend 0 dest chk (by rw [hd]; norm_num)
  have hstoul : stoulModel (parseStrSidechain (genPrefix 0 dest ++ chk)) = some 0 := by
    rw [hside]; exact stoulModel_decimal 0 (by norm_num) _
  have hout : parseStrAddressOut (genPrefix 0 dest ++ chk) = [] := by
    rw [parseStrAddressOut, hdelim1, hq, substrC]
    norm_num [U32]
  rw [hgen, ParseDepositAddress, if_neg (genAppend_ne_nil 0 dest chk),
    if_neg (by rw [genAppend_head 0 dest chk]; simp),
    if_neg (by rw [not_or, hdelim1, hq, NPOS]; exact ⟨by norm_num, by norm_num⟩),
    if_neg (by
      rw [not_or, hdelim1, hq, hlen]
      exact ⟨by norm_num, by rw [U32]; norm_num⟩),
    if_neg (by rw [hside]; simp [toDecString_ne_nil 0])]
  simp only [hstoul]
  rw [if_neg (by rw [U32]; norm_num), if_pos hout]

/-- C1 (counterexample): the claim fails as stated on a 2^32-character
destination.  `delim2` is a 32-bit `unsigned int`, so the true position of
the final underscore (2^32 + 3) truncates to 3 = `delim1`, making the
extracted destination substring empty, and the parser rejects its own
generator's output instead of returning the destination and index 0. -/
theorem c1_roundtrip_fails_on_huge_destination :
    (ParseDepositAddress shaZero
        (GenerateDepositAddress shaZero 0 (List.replicate 4294967296 'a')) [] 0).1 =
      false :=
  parse_generate_huge_reject (List.replicate 4294967296 'a')
    (by rw [List.length_replicate])

/-- C1 (amended): for every `sidechainIndex` in [0,255] and every
non-empty destination (underscores allowed) short enough for the parser's
32-bit delimiter locals (`dest.length + 12 < 2^32`), parsing the address
produced by the generator succeeds and returns exactly that destination
and that index — for any 32-byte-output hash collaborator, with any
incoming values of the two out-parameters. -/
theorem c1_address_roundtrip_bounded (sha : List Char → List Nat)
    (hsha : ∀ s, (sha s).length = 32) (nSidechain : Nat) (hn : nSidechain ≤ 255)
    (dest : List Char) (hdne : dest ≠ [])
    (hblen : dest.length + 12 < 4294967296) (strOut0 : List Char) (nOut0 : Nat) :
    ParseDepositAddress sha (GenerateDepositAddress sha nSidechain dest) strOut0 nOut0 =
      (true, dest, nSidechain) :=
  parse_generate_accept sha hsha nSidechain hn dest hdne hblen strOut0 nOut0

/-- Witness for C1 (amended) at a concrete index and destination. -/
theorem c1_address_roundtrip_bounded_witness :
    ParseDepositAddress shaZero (GenerateDepositAddress shaZero 7 ['a', 'b', 'c']) [] 0 =
      (true, ['a', 'b', 'c'], 7) :=
  c1_address_roundtrip_bounded shaZero (fun _ => rfl) 7 (by decide) ['a', 'b', 'c']
    (by decide) (by decide) [] 0

/-- C5: replacing any one of the final 6 characters of a generated deposit
address with any different character makes the parser reject, for every
index in [0,255], every destination, and every 32-byte-output hash
collaborator. -/
theorem c5_checksum_tamper_detection (sha : List Char → List Nat)
    (hsha : ∀ s, (sha s).length = 32) (nSidechain : Nat) (hn : nSidechain ≤ 255)
    (dest : List Char) (pos : Nat) (c : Char)
    (hpos : pos < (GenerateDepositAddress sha nSidechain dest).length)
    (hpos6 : (GenerateDepositAddress sha nSidechain dest).length - 6 ≤ pos)
    (hc : c ≠ (GenerateDepositAddress sha nSidechain dest).get ⟨pos, hpos⟩)
    (strOut0 : List Char) (nOut0 : Nat) :
    (ParseDepositAddress sha
        ((GenerateDepositAddress sha nSidechain dest).set pos c) strOut0 nOut0).1 =
      false := by
  have hgen : GenerateDepositAddress sha nSidechain dest =
      genPrefix nSidechain dest ++ (hexStr (sha (genPrefix nSidechain dest))).take 6 := rfl
  set chk := (hexStr (sha (genPrefix nSidechain dest))).take 6 with hchk
  have h6 : chk.length = 6 := by
    rw [hchk, List.length_take, length_hexStr, hsha]
    decide
  have hlen' : (GenerateDepositAddress sha nSidechain dest).length =
      (genPrefix nSidechain dest).length + 6 := by
    rw [hgen, List.length_append, h6]
  have hLpos : (genPrefix nSidechain dest).length ≤ pos := by
    rw [hlen'] at hpos6
    omega
  have hposlt := hpos
  rw [hlen'] at hposlt
  have hidx : pos - (genPrefix nSidechain dest).length < chk.length := by
    rw [h6]
    omega
  have hset : (GenerateDepositAddress sha nSidechain dest).set pos c =
      genPrefix nSidechain dest ++ chk.set (pos - (genPrefix nSidechain dest).length) c := by
    rw [hgen, List.set_append, if_neg (by omega)]
  have hneq : chk.set (pos - (genPrefix nSidechain dest).length) c ≠ chk := by
    intro heq
    apply hc
    have hgete : (chk.set (pos - (genPrefix nSidechain dest).length) c)[pos -
        (genPrefix nSidechain dest).length]? = some c :=
      List.getElem?_set_self hidx
    rw [heq, List.getElem?_eq_getElem hidx] at hgete
    have hgidx : (GenerateDepositAddress sha nSidechain dest).get ⟨pos, hpos⟩ =
        chk.get ⟨pos - (genPrefix nSidechain dest).length, hidx⟩ := by
      rw [List.get_eq_getElem, List.get_eq_getElem]
      exact List.getElem_append_right hLpos
    rw [hgidx, List.get_eq_getElem]
    exact (Option.some_inj.mp hgete).symm
  rw [hset]
  exact parse_reject_of_bad_tail sha hsha nSidechain hn dest _
    (by rw [List.length_set, h6]) (by rw [hchk] at hneq; exact hneq) strOut0 nOut0

/-- Witness for C5: flipping the last checksum character of a concrete
generated address is rejected. -/
theorem c5_checksum_tamper_detection_witness :
    (ParseDepositAddress shaZero
        ((GenerateDepositAddress shaZero 7 ['a', 'b', 'c']).set 12 'x') [] 0).1 =
      false :=
  c5_checksum_tamper_detection shaZero (fun _ => rfl) 7 (by decide) ['a', 'b', 'c']
    12 'x' (by decide) (by decide) (by decide) [] 0

/-- C6: whenever the substring the parser hands to `std::stoul` (between
position 1 and `delim1`) is empty or fails to parse as an unsigned
decimal, `ParseDepositAddress` returns the rejection result — the
would-be exception is converted into `false`, never propagated (the model
is a total function; the `catch (...)` branch is the `none` case). -/
theorem c6_numeric_parse_failure_rejects (sha : List Char → List Nat)
    (s strOut0 : List Char) (nOut0 : Nat)
    (h : parseStrSidechain s = [] ∨ stoulModel (parseStrSidechain s) = none) :
    (ParseDepositAddress sha s strOut0 nOut0).1 = false := by
  rw [ParseDepositAddress]
  by_cases h1 : s = []
  · rw [if_pos h1]
  · rw [if_neg h1]
    by_cases h2 : s.head? ≠ some 's'
    · rw [if_pos h2]
    · rw [if_neg h2]
      by_cases h3 : parseDelim1 s = NPOS ∨ parseDelim2 s = NPOS
      · rw [if_pos h3]
      · rw [if_neg h3]
        by_cases h4 : parseDelim1 s ≥ s.length ∨ U32 (parseDelim2 s + 1) ≥ s.length
        · rw [if_pos h4]
        · rw [if_neg h4]
          by_cases h5 : parseStrSidechain s = []
          · rw [if_pos h5]
          · rw [if_neg h5]
            rcases h with he | hnone
            · exact absurd he h5
            · rw [hnone]

/-- Witness for C6: `"sx_a_b"` has a non-numeric index substring. -/
theorem c6_numeric_parse_failure_rejects_witness :
    (ParseDepositAddress shaZero ['s', 'x', '_', 'a', '_', 'b'] ['q'] 5).1 = false :=
  c6_numeric_parse_failure_rejects shaZero ['s', 'x', '_', 'a', '_', 'b'] ['q'] 5
    (Or.inr (by decide))

/-- C7: the parser rejects the empty string, any string not starting with
`'s'`, any string containing no underscore, and any address whose parsed
sidechain index (the 32-bit value assigned from `std::stoul`) exceeds
255. -/
theorem c7_boundary_rejection (sha : List Char → List Nat) (strOut0 : List Char)
    (nOut0 : Nat) :
    (ParseDepositAddress sha [] strOut0 nOut0).1 = false ∧
    (∀ s, s.head? ≠ some 's' → (ParseDepositAddress sha s strOut0 nOut0).1 = false) ∧
    (∀ s, '_' ∉ s → (ParseDepositAddress sha s strOut0 nOut0).1 = false) ∧
    (∀ s v, stoulModel (parseStrSidechain s) = some v → 255 < U32 v →
      (ParseDepositAddress sha s strOut0 nOut0).1 = false) := by
  refine ⟨rfl, ?_, ?_, ?_⟩
  · intro s hs
    rw [ParseDepositAddress]
    by_cases h1 : s = []
    · rw [if_pos h1]
    · rw [if_neg h1, if_pos hs]
  · intro s hmem
    have h5 : parseStrSidechain s = [] := by
      have hf : findFirstOf s '_' = NPOS := by
        rw [findFirstOf, findCharIdx_eq_none hmem]
      have hd1 : parseDelim1 s = 0 := by
        rw [parseDelim1, hf, NPOS, U32]
      rw [parseStrSidechain, hd1, substrC]
      rfl
    rw [ParseDepositAddress]
    by_cases h1 : s = []
    · rw [if_pos h1]
    · rw [if_neg h1]
      by_cases h2 : s.head? ≠ some 's'
      · rw [if_pos h2]
      · rw [if_neg h2]
        by_cases h3 : parseDelim1 s = NPOS ∨ parseDelim2 s = NPOS
        · rw [if_pos h3]
        · rw [if_neg h3]
          by_cases h4 : parseDelim1 s ≥ s.length ∨ U32 (parseDelim2 s + 1) ≥ s.length
          · rw [if_pos h4]
          · rw [if_neg h4, if_pos h5]
  · intro s v hv h255
    rw [ParseDepositAddress]
    by_cases h1 : s = []
    · rw [if_pos h1]
    · rw [if_neg h1]
      by_cases h2 : s.head? ≠ some 's'
      · rw [if_pos h2]
      · rw [if_neg h2]
        by_cases h3 : parseDelim1 s = NPOS ∨ parseDelim2 s = NPOS
        · rw [if_pos h3]
        · rw [if_neg h3]
          by_cases h4 : parseDelim1 s ≥ s.length ∨ U32 (parseDelim2 s + 1) ≥ s.length
          · rw [if_pos h4]
          · rw [if_neg h4]
            by_cases h5 : parseStrSidechain s = []
            · rw [if_pos h5]
            · rw [if_neg h5]
              simp only [hv]
              rw [if_pos h255]

/-- Witness for C7 at the spec's boundary examples. -/
theorem c7_boundary_rejection_witness :
    (ParseDepositAddress shaZero [] ['q'] 3).1 = false ∧
    (ParseDepositAddress shaZero ['x', '1', '_', 'a', '_', 'f'] ['q'] 3).1 = false ∧
    (ParseDepositAddress shaZero ['s', '7', 'a'] ['q'] 3).1 = false ∧
    (ParseDepositAddress shaZero ['s', '2', '5', '6', '_', 'a', '_', 'c'] ['q'] 3).1 =
      false :=
  ⟨(c7_boundary_rejection shaZero ['q'] 3).1,
    (c7_boundary_rejection shaZero ['q'] 3).2.1 _ (by decide),
    (c7_boundary_rejection shaZero ['q'] 3).2.2.1 _ (by decide),
    (c7_boundary_rejection shaZero ['q'] 3).2.2.2 _ 256 (by decide) (by decide)⟩

/-- C10: address parsing is not atomic on failure.  Concretely, on
`"s7_abc_111111"` (whose checksum is wrong for the `shaZero`
collaborator), the parser returns the rejection result but has already
overwritten both out-parameters — entering with `strAddressOut = "x"` and
`nSidechainOut = 99`, it leaves them holding the parsed destination
`"abc"` and the parsed index `7`. -/
theorem c10_parse_overwrites_outputs_on_failure :
    ParseDepositAddress shaZero
        ['s', '7', '_', 'a', 'b', 'c', '_', '1', '1', '1', '1', '1', '1'] ['x'] 99 =
      (false, ['a', 'b', 'c'], 7) ∧
    (['a', 'b', 'c'] : List Char) ≠ ['x'] ∧ (7 : Nat) ≠ 99 :=
  ⟨by decide, by decide, by decide⟩

/-! # Serialization round-trip lemmas -/

theorem readByte_cons (b : Nat) (r : List Nat) : readByte (b :: r) = some (b, r) := rfl

theorem leDec_leEnc (k : Nat) :
    ∀ n r, n < 256 ^ k → leDec k (leEnc k n ++ r) = some (n, r) := by
  induction k with
  | zero =>
    intro n r h
    have h0 : n = 0 := by simpa using h
    subst h0
    rfl
  | succ k ih =>
    intro n r h
    rw [leEnc, List.cons_append, leDec,
      ih (n / 256) r (by
        rw [pow_succ] at h
        exact (Nat.div_lt_iff_lt_mul (by norm_num)).mpr h)]
    simp only [Option.map_some']
    congr 2
    omega

theorem compactSizeDec_enc (n : Nat) (h : n < 18446744073709551616) (r : List Nat) :
    compactSizeDec (compactSizeEnc n ++ r) = some (n, r) := by
  rw [compactSizeEnc]
  by_cases h1 : n < 253
  · rw [if_pos h1, List.singleton_append, compactSizeDec,
      if_neg (by omega), if_neg (by omega), if_neg (by omega)]
  · rw [if_neg h1]
    by_cases h2 : n < 65536
    · rw [if_pos h2, List.cons_append, compactSizeDec, if_pos rfl]
      exact leDec_leEnc 2 n r (by norm_num; omega)
    · rw [if_neg h2]
      by_cases h3 : n < 4294967296
      · rw [if_pos h3, List.cons_append, compactSizeDec, if_neg (by omega), if_pos rfl]
        exact leDec_leEnc 4 n r (by norm_num; omega)
      · rw [if_neg h3, List.cons_append, compactSizeDec, if_neg (by omega),
          if_neg (by omega), if_pos rfl]
        exact leDec_leEnc 8 n r (by norm_num; omega)

theorem bytesDec_enc (s : List Nat) (h : s.length < 18446744073709551616)
    (r : List Nat) : bytesDec (bytesEnc s ++ r) = some (s, r) := by
  rw [bytesEnc, List.append_assoc, bytesDec]
  simp only [compactSizeDec_enc s.length h (s ++ r)]
  rw [if_pos (by rw [List.length_append]; omega), List.take_left, List.drop_left]

theorem bytes32Dec_append (hsh : List Nat) (h : hsh.length = 32) (r : List Nat) :
    bytes32Dec (hsh ++ r) = some (hsh, r) := by
  have h1 : (hsh ++ r).take 32 = hsh := by
    rw [← h]
    exact List.take_left hsh r
  have h2 : (hsh ++ r).drop 32 = r := by
    rw [← h]
    exact List.drop_left hsh r
  rw [bytes32Dec, if_pos (by rw [List.length_append]; omega), h1, h2]

theorem bytes32Dec_exact (hsh : List Nat) (h : hsh.length = 32) :
    bytes32Dec hsh = some (hsh, []) := by
  rw [bytes32Dec, if_pos (by omega), List.take_of_length_le (by omega),
    List.drop_eq_nil_of_le (by omega)]

/-- Field-for-field round trip of the WT serializer. -/
theorem deserWT_serWT (w : SidechainWT)
    (hdl : w.strDestination.length < 18446744073709551616)
    (ham : w.amount < 18446744073709551616)
    (hfee : w.mainchainFee < 18446744073709551616)
    (hh : w.hashBlindWTX.length = 32) :
    deserWT (serWT w) = some w := by
  have e1 : bytesDec (bytesEnc w.strDestination ++ (leEnc 8 w.amount ++
      (leEnc 8 w.mainchainFee ++ w.status :: w.hashBlindWTX))) =
      some (w.strDestination, leEnc 8 w.amount ++
        (leEnc 8 w.mainchainFee ++ w.status :: w.hashBlindWTX)) :=
    bytesDec_enc _ hdl _
  have e2 : leDec 8 (leEnc 8 w.amount ++
      (leEnc 8 w.mainchainFee ++ w.status :: w.hashBlindWTX)) =
      some (w.amount, leEnc 8 w.mainchainFee ++ w.status :: w.hashBlindWTX) :=
    leDec_leEnc 8 _ _ (by norm_num; omega)
  have e3 : leDec 8 (leEnc 8 w.mainchainFee ++ w.status :: w.hashBlindWTX) =
      some (w.mainchainFee, w.status :: w.hashBlindWTX) :=
    leDec_leEnc 8 _ _ (by norm_num; omega)
  have e4 : bytes32Dec w.hashBlindWTX = some (w.hashBlindWTX, []) :=
    bytes32Dec_exact _ hh
  rw [serWT, deserWT]
  simp only [List.append_assoc, List.cons_append, readByte_cons, e1, e2, e3, e4]

/-- Field-for-field round trip of the WTPrime serializer, given the
transaction collaborator's round-trip contract. -/
theorem deserWTPrime_serWTPrime {Tx : Type} (txEnc : Tx → List Nat)
    (txDec : List Nat → Option (Tx × List Nat))
    (htx : ∀ t r, txDec (txEnc t ++ r) = some (t, r)) (w : SidechainWTPrime Tx)
    (hht : w.nHeight < 4294967296) :
    deserWTPrime txDec (serWTPrime txEnc w) = some w := by
  have e1 : txDec (txEnc w.wtPrime ++ (leEnc 4 w.nHeight ++ [w.status])) =
      some (w.wtPrime, leEnc 4 w.nHeight ++ [w.status]) := htx _ _
  have e2 : leDec 4 (leEnc 4 w.nHeight ++ [w.status]) =
      some (w.nHeight, [w.status]) :=
    leDec_leEnc 4 _ _ (by norm_num; omega)
  rw [serWTPrime, deserWTPrime]
  simp only [List.append_assoc, List.cons_append, readByte_cons, e1, e2]

/-- Field-for-field round trip of the Deposit serializer. -/
theorem deserDeposit_serDeposit {Tx : Type} (txEnc : Tx → List Nat)
    (txDec : List Nat → Option (Tx × List Nat))
    (htx : ∀ t r, txDec (txEnc t ++ r) = some (t, r)) (d : SidechainDeposit Tx)
    (hdl : d.strDest.length < 18446744073709551616)
    (ham : d.amtUserPayout < 18446744073709551616)
    (hbi : d.nBurnIndex < 4294967296) (hti : d.nTx < 4294967296)
    (hh : d.hashMainchainBlock.length = 32) :
    deserDeposit txDec (serDeposit txEnc d) = some d := by
  have e1 : bytesDec (bytesEnc d.strDest ++ (leEnc 8 d.amtUserPayout ++
      (txEnc d.dtx ++ (leEnc 4 d.nBurnIndex ++
        (leEnc 4 d.nTx ++ d.hashMainchainBlock))))) =
      some (d.strDest, leEnc 8 d.amtUserPayout ++ (txEnc d.dtx ++
        (leEnc 4 d.nBurnIndex ++ (leEnc 4 d.nTx ++ d.hashMainchainBlock)))) :=
    bytesDec_enc _ hdl _
  have e2 : leDec 8 (leEnc 8 d.amtUserPayout ++ (txEnc d.dtx ++
      (leEnc 4 d.nBurnIndex ++ (leEnc 4 d.nTx ++ d.hashMainchainBlock)))) =
      some (d.amtUserPayout, txEnc d.dtx ++
        (leEnc 4 d.nBurnIndex ++ (leEnc 4 d.nTx ++ d.hashMainchainBlock))) :=
    leDec_leEnc 8 _ _ (by norm_num; omega)
  have e3 : txDec (txEnc d.dtx ++ (leEnc 4 d.nBurnIndex ++
      (leEnc 4 d.nTx ++ d.hashMainchainBlock))) =
      some (d.dtx, leEnc 4 d.nBurnIndex ++ (leEnc 4 d.nTx ++ d.hashMainchainBlock)) :=
    htx _ _
  have e4 : leDec 4 (leEnc 4 d.nBurnIndex ++ (leEnc 4 d.nTx ++ d.hashMainchainBlock)) =
      some (d.nBurnIndex, leEnc 4 d.nTx ++ d.hashMainchainBlock) :=
    leDec_leEnc 4 _ _ (by norm_num; omega)
  have e5 : leDec 4 (leEnc 4 d.nTx ++ d.hashMainchainBlock) =
      some (d.nTx, d.hashMainchainBlock) :=
    leDec_leEnc 4 _ _ (by norm_num; omega)
  have e6 : bytes32Dec d.hashMainchainBlock = some (d.hashMainchainBlock, []) :=
    bytes32Dec_exact _ hh
  rw [serDeposit, deserDeposit]
  simp only [List.append_assoc, List.cons_append, readByte_cons, e1, e2, e3, e4, e5, e6]

/-! # Claim theorems: binary framing codec, hash dispatch, selection -/

/-- C2: for every variant and every valid field assignment, decoding the
encoder's output with the 5-byte frame header stripped yields an object
equal to the original field for field — for every transaction collaborator
satisfying its round-trip contract. -/
theorem c2_object_roundtrip {Tx : Type} (txEnc : Tx → List Nat)
    (txDec : List Nat → Option (Tx × List Nat))
    (htx : ∀ t r, txDec (txEnc t ++ r) = some (t, r))
    (obj : SidechainObj Tx) (hv : ValidObj obj) :
    ParseSidechainObj txDec ((SidechainObj.GetScript txEnc obj).drop 5) = some obj := by
  cases obj with
  | wt w =>
    obtain ⟨ht, _, hdl, _, ham, hfee, _, hh, _⟩ := hv
    have hscript : (SidechainObj.GetScript txEnc (SidechainObj.wt w)).drop 5 =
        serWT w := by
      rw [SidechainObj.GetScript]
      simp only [if_pos ht]
      rfl
    have hcons : serWT w = DB_SIDECHAIN_WT_OP :: w.nSidechain ::
        (bytesEnc w.strDestination ++ leEnc 8 w.amount ++
          leEnc 8 w.mainchainFee ++ w.status :: w.hashBlindWTX) := by
      rw [serWT, ht]
    rw [hscript, hcons, ParseSidechainObj, if_pos rfl, ← hcons,
      deserWT_serWT w hdl ham hfee hh]
    rfl
  | wtprime w =>
    obtain ⟨ht, _, hht, _⟩ := hv
    have hscript : (SidechainObj.GetScript txEnc (SidechainObj.wtprime w)).drop 5 =
        serWTPrime txEnc w := by
      rw [SidechainObj.GetScript]
      simp only [if_pos ht]
      rfl
    have hcons : serWTPrime txEnc w = DB_SIDECHAIN_WTPRIME_OP :: w.nSidechain ::
        (txEnc w.wtPrime ++ leEnc 4 w.nHeight ++ [w.status]) := by
      rw [serWTPrime, ht]
    rw [hscript, hcons, ParseSidechainObj, if_neg (by decide), if_pos rfl, ← hcons,
      deserWTPrime_serWTPrime txEnc txDec htx w hht]
    rfl
  | deposit d =>
    obtain ⟨ht, _, hdl, _, ham, hbi, hti, hh, _⟩ := hv
    have hscript : (SidechainObj.GetScript txEnc (SidechainObj.deposit d)).drop 5 =
        serDeposit txEnc d := by
      rw [SidechainObj.GetScript]
      simp only [if_pos ht]
      rfl
    have hcons : serDeposit txEnc d = DB_SIDECHAIN_DEPOSIT_OP :: d.nSidechain ::
        (bytesEnc d.strDest ++ leEnc 8 d.amtUserPayout ++ txEnc d.dtx ++
          leEnc 4 d.nBurnIndex ++ leEnc 4 d.nTx ++ d.hashMainchainBlock) := by
      rw [serDeposit, ht]
    rw [hscript, hcons, ParseSidechainObj, if_neg (by decide), if_neg (by decide),
      if_pos rfl, ← hcons, deserDeposit_serDeposit txEnc txDec htx d hdl ham hbi hti hh]
    rfl

/-- Witness for C2 at a concrete WT object with the trivial transaction
collaborator. -/
theorem c2_object_roundtrip_witness :
    ParseSidechainObj unitTxDec
        ((SidechainObj.GetScript unitTxEnc (SidechainObj.wt
          ⟨87, 3, [65, 66], 1000, 5, 0, List.replicate 32 9⟩)).drop 5) =
      some (SidechainObj.wt ⟨87, 3, [65, 66], 1000, 5, 0, List.replicate 32 9⟩) :=
  c2_object_roundtrip unitTxEnc unitTxDec (fun _ _ => rfl) _
    (by unfold ValidObj ValidWT; refine ⟨rfl, by norm_num, by norm_num, by decide,
      by norm_num, by norm_num, by norm_num, by decide, by decide⟩)

/-- C3: the framing decoder yields no object (`none`, not an error) on the
empty byte vector and on any byte vector whose first byte matches none of
the three discriminant constants. -/
theorem c3_unknown_tag_decode {Tx : Type} (txDec : List Nat → Option (Tx × List Nat))
    (vch : List Nat)
    (h : ∀ b, vch.head? = some b → b ≠ DB_SIDECHAIN_WT_OP ∧
      b ≠ DB_SIDECHAIN_WTPRIME_OP ∧ b ≠ DB_SIDECHAIN_DEPOSIT_OP) :
    ParseSidechainObj txDec vch = none := by
  cases vch with
  | nil => rfl
  | cons b t =>
    obtain ⟨hb1, hb2, hb3⟩ := h b rfl
    rw [ParseSidechainObj, if_neg hb1, if_neg hb2, if_neg hb3]

/-- Witness for C3: the empty vector and an unknown-tag vector decode to
nothing. -/
theorem c3_unknown_tag_decode_witness :
    ParseSidechainObj unitTxDec [] = (none : Option (SidechainObj Unit)) ∧
    ParseSidechainObj unitTxDec [0, 1, 2] = (none : Option (SidechainObj Unit)) :=
  ⟨c3_unknown_tag_decode unitTxDec [] (fun b hb => by cases hb),
    c3_unknown_tag_decode unitTxDec [0, 1, 2] (fun b hb => by
      simp only [List.head?_cons, Option.some_inj] at hb
      subst hb
      decide)⟩

/-- C4: for every valid object the encoder's output starts with exactly
the 5 header bytes — the OP_RETURN marker then the magic `0xAC 0xDC 0xF6
0x6F` — and the object's canonical serialization starts at byte 5. -/
theorem c4_script_header {Tx : Type} (txEnc : Tx → List Nat)
    (obj : SidechainObj Tx) (hv : ValidObj obj) :
    (SidechainObj.GetScript txEnc obj).take 5 = [OP_RETURN, 172, 220, 246, 111] ∧
    (SidechainObj.GetScript txEnc obj).drop 5 = serObj txEnc obj := by
  cases obj with
  | wt w =>
    refine ⟨rfl, ?_⟩
    rw [SidechainObj.GetScript]
    simp only [if_pos hv.1]
    rfl
  | wtprime w =>
    refine ⟨rfl, ?_⟩
    rw [SidechainObj.GetScript]
    simp only [if_pos hv.1]
    rfl
  | deposit d =>
    refine ⟨rfl, ?_⟩
    rw [SidechainObj.GetScript]
    simp only [if_pos hv.1]
    rfl

/-- Witness for C4 at a concrete WTPrime object. -/
theorem c4_script_header_witness :
    (SidechainObj.GetScript unitTxEnc (SidechainObj.wtprime
        ⟨80, 1, (), 9, 2⟩)).take 5 = [OP_RETURN, 172, 220, 246, 111] ∧
    (SidechainObj.GetScript unitTxEnc (SidechainObj.wtprime
        ⟨80, 1, (), 9, 2⟩)).drop 5 =
      serObj unitTxEnc (SidechainObj.wtprime ⟨80, 1, (), 9, 2⟩) :=
  c4_script_header unitTxEnc _
    (by unfold ValidObj ValidWTPrime; exact ⟨rfl, by norm_num, by norm_num, by norm_num⟩)

/-- C8: the unspent filter retains exactly the withdrawal requests whose
status is `WT_UNSPENT`, in their original relative order (it equals
`List.filter` on that status test, and its result is a sublist of the
input); all other elements are removed from the caller's list, whose new
contents this model returns. -/
theorem c8_filter_unspent (v : List SidechainWT) :
    SelectUnspentWT v = v.filter (fun wt => wt.status == WT_UNSPENT) ∧
    (SelectUnspentWT v).Sublist v := by
  have he : SelectUnspentWT v = v.filter (fun wt => wt.status == WT_UNSPENT) := by
    rw [SelectUnspentWT, eraseRemoveIf]
    apply List.filter_congr
    intro wt _
    simp [bne]
  exact ⟨he, he ▸ List.filter_sublist v⟩

/-- C9: the fingerprint dispatch on an object whose stored `sidechainop`
matches none of the three discriminant constants returns the
default-constructed all-zero 256-bit digest instead of failing. -/
theorem c9_unknown_tag_hash_default (hWT hWTPrime hDeposit : List Nat) (tag : Nat)
    (h1 : tag ≠ DB_SIDECHAIN_WT_OP) (h2 : tag ≠ DB_SIDECHAIN_WTPRIME_OP)
    (h3 : tag ≠ DB_SIDECHAIN_DEPOSIT_OP) :
    GetHashDispatch hWT hWTPrime hDeposit tag = List.replicate 32 0 := by
  rw [GetHashDispatch, if_neg h1, if_neg h2, if_neg h3]

/-- Witness for C9 at tag 0 with arbitrary branch digests. -/
theorem c9_unknown_tag_hash_default_witness :
    GetHashDispatch (List.replicate 32 7) (List.replicate 32 8)
      (List.replicate 32 9) 0 = List.replicate 32 0 :=
  c9_unknown_tag_hash_default (List.replicate 32 7) (List.replicate 32 8)
    (List.replicate 32 9) 0 (by decide) (by decide) (by decide)

end Sidechain
